import Mathlib

/-!
# Verification of the Kashmiri AI voice-assistant front end

This development embeds the session controller, transcript aggregator and
audio codec helpers of the application (src/App.tsx and its audio utility
module) as pure Lean definitions, and proves the behavioural properties the
design document states about them.

The browser state (React state hooks and mutable refs of the App component)
is collected into one structure `AppState`; each event callback of the source
(stopSession, startSession, the live-session callbacks onopen / onmessage /
onerror / onclose, the playback-ended listener and the mode-switch buttons)
becomes a pure state-transition function.  Times and durations are modelled
as rationals.  Playback sources additionally carry a ghost ledger
(`sources`) recording every source scheduled in the current session together
with its start time, duration and whether it was force-stopped, so that the
scheduling and teardown properties can be stated.
-/

/-- The two UI modes of the application (`AppMode` in src/App.tsx). -/
inductive AppMode where
  | conversation
  | transcription
deriving DecidableEq, Repr

/-- The status values of the controller (`Status` in src/App.tsx). -/
inductive Status where
  | idle
  | connecting
  | listening
  | speaking
  | error
  | processing
deriving DecidableEq, Repr

/-- Speaker tag of a finalized transcript entry. -/
inductive Speaker where
  | user
  | ai
deriving DecidableEq, Repr

/-- A finalized transcript record (`TranscriptEntry` in src/App.tsx). -/
structure TranscriptEntry where
  speaker : Speaker
  text : String
deriving DecidableEq, Repr

/-- A playback source as recorded in the ghost ledger: its identifier, the
time at which `source.start` was called, the duration of its audio buffer,
and whether `source.stop()` was invoked on it during teardown. -/
structure PlaybackSource where
  id : Nat
  startTime : ℚ
  duration : ℚ
  stopped : Bool
deriving DecidableEq, Repr

/-- The complete mutable state of the App component: React state hooks,
mutable refs (nullable refs become `Bool` presence flags; the browser only
ever closes a context right before nulling its ref, so a `true` flag always
denotes an open context), and the ghost ledger of scheduled sources. -/
structure AppState where
  mode : AppMode
  status : Status
  isRecording : Bool
  transcriptHistory : List TranscriptEntry
  currentUserTranscript : String
  currentAiTranscript : String
  summary : Option String
  sessionPromise : Bool
  mediaStream : Bool
  scriptProcessor : Bool
  mediaStreamSource : Bool
  inputAudioContext : Bool
  outputAudioContext : Bool
  currentInputTranscription : String
  currentOutputTranscription : String
  nextStartTime : ℚ
  audioSources : List Nat
  sources : List PlaybackSource
  nextSourceId : Nat
deriving DecidableEq, Repr

/-- The initial state of a freshly mounted App component. -/
def initState : AppState where
  mode := .conversation
  status := .idle
  isRecording := false
  transcriptHistory := []
  currentUserTranscript := ""
  currentAiTranscript := ""
  summary := none
  sessionPromise := false
  mediaStream := false
  scriptProcessor := false
  mediaStreamSource := false
  inputAudioContext := false
  outputAudioContext := false
  currentInputTranscription := ""
  currentOutputTranscription := ""
  nextStartTime := 0
  audioSources := []
  sources := []
  nextSourceId := 0

/-- Ghost-ledger bookkeeping of `source.stop()` during teardown: a ledger
entry whose source is in the active set `A` is marked force-stopped. -/
def stopMark (A : List Nat) (p : PlaybackSource) : PlaybackSource :=
  if p.id ∈ A then { p with stopped := true } else p

/-- `stopSession` (src/App.tsx lines 53-99): resets recording flag and
status, closes and discards the session, the media stream, the capture
graph nodes and the input context; if the output context is present (hence
open) it force-stops every active playback source, clears the active set
and closes the context; finally clears the in-progress transcript buffers
and their live-display counterparts.  Closing the remote session is wrapped
in try/catch in the source, so a failing close never escapes; the ghost
ledger records the force-stop of each source that was in the active set. -/
def stopSession (s : AppState) : AppState :=
  let base : AppState :=
    { s with
      isRecording := false
      status := .idle
      sessionPromise := false
      mediaStream := false
      scriptProcessor := false
      mediaStreamSource := false
      inputAudioContext := false
      currentUserTranscript := ""
      currentAiTranscript := ""
      currentInputTranscription := ""
      currentOutputTranscription := "" }
  if s.outputAudioContext then
    { base with
      sources := s.sources.map (stopMark s.audioSources)
      audioSources := []
      outputAudioContext := false }
  else
    base

/-- `startSession` (src/App.tsx lines 101-220).  `apiKey` tells whether the
API key environment credential is present; `micOk` tells whether the
microphone permission request succeeds.  Missing credential: log and set
status to error, touching nothing else.  Otherwise set the recording flag,
status connecting, clear any summary; if microphone access is denied the
catch block sets status error and clears the recording flag (no stream, no
contexts, no session were created).  On success the stream, both audio
contexts and the session promise are installed and the playback cursor is
reset to zero; the status stays connecting until the open callback fires.
The ghost ledger of scheduled sources is reset for the new session. -/
def startSession (apiKey : Bool) (micOk : Bool) (s : AppState) : AppState :=
  if apiKey = false then
    { s with status := .error }
  else
    let s1 := { s with isRecording := true, status := .connecting, summary := none }
    if micOk = false then
      { s1 with status := .error, isRecording := false }
    else
      { s1 with
        mediaStream := true
        inputAudioContext := true
        outputAudioContext := true
        nextStartTime := 0
        sessionPromise := true
        sources := []
        nextSourceId := 0 }

/-- The `onopen` callback (src/App.tsx lines 125-142): status becomes
listening and the capture graph (media-stream source and script processor)
is installed. -/
def onopen (s : AppState) : AppState :=
  { s with status := .listening, mediaStreamSource := true, scriptProcessor := true }

/-- One inbound live-server message, as consumed by the `onmessage`
callback: an optional input-transcription fragment, an optional
output-transcription fragment, an optional inline synthesized-audio payload
(represented by the duration of its decoded buffer), and the turn-complete
flag. -/
structure ServerMessage where
  inputTranscription : Option String
  outputTranscription : Option String
  audioDuration : Option ℚ
  turnComplete : Bool
deriving DecidableEq, Repr

/-- First block of the `onmessage` callback (src/App.tsx lines 144-148):
an input-transcription fragment is appended to the inbound buffer and
mirrored to the live user transcript. -/
def applyInput (msg : ServerMessage) (s : AppState) : AppState :=
  match msg.inputTranscription with
  | some t =>
      let buf := s.currentInputTranscription ++ t
      { s with currentInputTranscription := buf, currentUserTranscript := buf }
  | none => s

/-- Second block of the `onmessage` callback (src/App.tsx lines 149-156):
an output-transcription fragment sets status speaking in conversation mode,
is appended to the outbound buffer and mirrored to the live assistant
transcript. -/
def applyOutput (msg : ServerMessage) (s : AppState) : AppState :=
  match msg.outputTranscription with
  | some t =>
      let sa := if s.mode = .conversation then { s with status := .speaking } else s
      let buf := sa.currentOutputTranscription ++ t
      { sa with currentOutputTranscription := buf, currentAiTranscript := buf }
  | none => s

/-- Third block of the `onmessage` callback (src/App.tsx lines 158-178):
inline synthesized audio, in conversation mode with the output context
present, is scheduled at `max cursor now`; the cursor advances by the
decoded buffer duration and the new source joins the active set (and the
ghost ledger). -/
def applyAudio (msg : ServerMessage) (now : ℚ) (s : AppState) : AppState :=
  match msg.audioDuration with
  | some dur =>
      if s.outputAudioContext = true ∧ s.mode = .conversation then
        let start := max s.nextStartTime now
        { s with
          nextStartTime := start + dur
          audioSources := s.audioSources ++ [s.nextSourceId]
          sources := s.sources ++ [⟨s.nextSourceId, start, dur, false⟩]
          nextSourceId := s.nextSourceId + 1 }
      else s
  | none => s

/-- Fourth block of the `onmessage` callback (src/App.tsx lines 180-191):
on turn completion the non-empty trimmed buffers are finalized into history
entries (user first, assistant only in conversation mode) and both buffers
and their live-display counterparts are cleared. -/
def applyTurn (msg : ServerMessage) (s : AppState) : AppState :=
  if msg.turnComplete then
    { s with
      transcriptHistory :=
        s.transcriptHistory
          ++ (if s.currentInputTranscription.trim ≠ "" then
                [⟨.user, s.currentInputTranscription.trim⟩] else [])
          ++ (if s.currentOutputTranscription.trim ≠ "" ∧ s.mode = .conversation then
                [⟨.ai, s.currentOutputTranscription.trim⟩] else [])
      currentInputTranscription := ""
      currentOutputTranscription := ""
      currentUserTranscript := ""
      currentAiTranscript := "" }
  else s

/-- The `onmessage` callback (src/App.tsx lines 143-192) is the sequential
composition of its four blocks; `now` is the output context clock
(`audioContext.currentTime`) at processing time. -/
def onmessage (s : AppState) (msg : ServerMessage) (now : ℚ) : AppState :=
  applyTurn msg (applyAudio msg now (applyOutput msg (applyInput msg s)))

/-- The `ended` listener of a playback source (src/App.tsx lines 168-173):
the source leaves the active set; if the set becomes empty the status
returns to listening. -/
def onended (s : AppState) (srcId : Nat) : AppState :=
  let rest := s.audioSources.erase srcId
  if rest = [] then
    { s with audioSources := rest, status := .listening }
  else
    { s with audioSources := rest }

/-- The `onerror` callback (src/App.tsx lines 193-197): sets status error,
then invokes the full `stopSession` teardown. -/
def onerror (s : AppState) : AppState :=
  stopSession { s with status := .error }

/-- The `onclose` callback (src/App.tsx lines 198-200): invokes the
`stopSession` teardown. -/
def onclose (s : AppState) : AppState :=
  stopSession s

/-- A mode-switch button click (src/App.tsx lines 348-363): the click
handler changes the mode only when not recording. -/
def setModeClick (m : AppMode) (s : AppState) : AppState :=
  if s.isRecording then s else { s with mode := m }

/-- Processing a list of inbound messages in delivery order, each paired
with the output context clock value at its processing time. -/
def processMessages (s : AppState) (msgs : List (ServerMessage × ℚ)) : AppState :=
  msgs.foldl (fun st p => onmessage st p.1 p.2) s

/-- The events the App component reacts to. -/
inductive Event where
  | start (apiKey : Bool) (micOk : Bool)
  | stop
  | opened
  | message (msg : ServerMessage) (now : ℚ)
  | ended (srcId : Nat)
  | errorEvt
  | closeEvt
  | setMode (m : AppMode)

/-- One labelled transition of the App.  `start` is reachable through the
toggle button only while not recording and not connecting (the button is
disabled while connecting); `stop` may also fire unconditionally through the
unmount cleanup effect; the live-session callbacks are deliverable only
while the session reference is present (stopSession closes the session, so
no callback fires afterwards); an `ended` event belongs to a source in the
active set. -/
inductive Step : AppState → Event → AppState → Prop where
  | start (s : AppState) (k m : Bool) (hrec : s.isRecording = false)
      (hst : s.status ≠ .connecting) :
      Step s (.start k m) (startSession k m s)
  | stop (s : AppState) : Step s .stop (stopSession s)
  | opened (s : AppState) (hs : s.sessionPromise = true) :
      Step s .opened (onopen s)
  | message (s : AppState) (msg : ServerMessage) (now : ℚ)
      (hs : s.sessionPromise = true) :
      Step s (.message msg now) (onmessage s msg now)
  | ended (s : AppState) (i : Nat) (hi : i ∈ s.audioSources) :
      Step s (.ended i) (onended s i)
  | errorEvt (s : AppState) (hs : s.sessionPromise = true) :
      Step s .errorEvt (onerror s)
  | closeEvt (s : AppState) (hs : s.sessionPromise = true) :
      Step s .closeEvt (onclose s)
  | setMode (s : AppState) (m : AppMode) : Step s (.setMode m) (setModeClick m s)

/-- States reachable from the freshly mounted component. -/
inductive Reachable : AppState → Prop where
  | init : Reachable initState
  | step {s : AppState} {e : Event} {s' : AppState} :
      Reachable s → Step s e s' → Reachable s'

/-- Core control invariant of the component: an installed session implies
the recording flag; an active status implies the recording flag; a
non-empty active-source set implies an installed session and an open
output context. -/
def CtrlInv (s : AppState) : Prop :=
  (s.sessionPromise = true → s.isRecording = true) ∧
  ((s.status = .connecting ∨ s.status = .listening ∨ s.status = .speaking) →
      s.isRecording = true) ∧
  (s.audioSources ≠ [] → s.sessionPromise = true ∧ s.outputAudioContext = true)

/-- Consecutive ledger entries never overlap: each source starts no earlier
than the end of its predecessor. -/
def chainOk : List PlaybackSource → Prop
  | p :: q :: rest => p.startTime + p.duration ≤ q.startTime ∧ chainOk (q :: rest)
  | _ => True

/-- Scheduling invariant: the ledger of the current session is chained and
the cursor is at or past the end of the last scheduled source. -/
def SchedInv (s : AppState) : Prop :=
  chainOk s.sources ∧
  ∀ p, s.sources.getLast? = some p → p.startTime + p.duration ≤ s.nextStartTime

/-- Concatenation of the input-transcription fragments of a message list. -/
def inFrags : List ServerMessage → String
  | [] => ""
  | m :: ms => m.inputTranscription.getD "" ++ inFrags ms

/-- Concatenation of the output-transcription fragments of a message list. -/
def outFrags : List ServerMessage → String
  | [] => ""
  | m :: ms => m.outputTranscription.getD "" ++ outFrags ms

/-- A live session right after the open callback: listening state with the
session, both contexts and the capture graph installed. -/
def activeState : AppState := onopen (startSession true true initState)

/-- An inbound message carrying only synthesized audio of duration 3/2. -/
def audioMsg : ServerMessage :=
  { inputTranscription := none
    outputTranscription := none
    audioDuration := some (3 / 2 : ℚ)
    turnComplete := false }

/-- The active session after two audio messages: two playback sources are
scheduled and in the active set. -/
def twoSourceState : AppState := onmessage (onmessage activeState audioMsg 0) audioMsg 0

/-! ## Audio codec helpers

App.tsx imports `createBlob`, `decode`, `decodeAudioData` and `encode` from
src/utils/audioUtils, a module that is not part of the repository snapshot;
the codec is therefore modelled from the design document (§4.1), which the
claims name `encodeOutbound` / `decodeInbound`.  Samples are rationals
standing for the floating-point amplitudes. -/

/-- Modelled from the spec: clamping of a sample to the range [-1, 1]
performed by `encodeOutbound` (src/utils/audioUtils is missing from the
snapshot). -/
def clampSample (x : ℚ) : ℚ := max (-1) (min 1 x)

/-- Modelled from the spec: scaling of a clamped sample to a 16-bit signed
integer (`encodeOutbound` "clamps/scales each sample to a 16-bit signed
integer"); round-to-nearest scaling by the symmetric factor 32767. -/
def quantize (x : ℚ) : ℤ := ⌊clampSample x * 32767 + 1 / 2⌋

/-- Modelled from the spec: little-endian packing of one 16-bit signed
integer into two bytes (two's complement). -/
def int16ToBytes (v : ℤ) : List ℕ :=
  [(v % 65536).toNat % 256, (v % 65536).toNat / 256]

/-- Modelled from the spec: reading one little-endian 16-bit signed integer
back from two bytes (`decodeInbound` "reinterprets as 16-bit PCM"). -/
def bytesToInt16 (b0 b1 : ℕ) : ℤ :=
  let u := b0 + 256 * b1
  if u < 32768 then (u : ℤ) else (u : ℤ) - 65536

/-- Modelled from the spec: the byte stream reinterpreted as consecutive
little-endian 16-bit signed integers. -/
def bytesToInts : List ℕ → List ℤ
  | b0 :: b1 :: rest => bytesToInt16 b0 b1 :: bytesToInts rest
  | _ => []

/-- Modelled from the spec: the packed little-endian 16-bit PCM byte stream
of a sample sequence. -/
def pcmBytes : List ℚ → List ℕ
  | [] => []
  | x :: xs => int16ToBytes (quantize x) ++ pcmBytes xs

/-- The standard base64 alphabet. -/
def base64Alphabet : List Char :=
  "ABCDEFGHIJKLMNOPQRSTUVWXYZabcdefghijklmnopqrstuvwxyz0123456789+/".toList

/-- The base64 character of a six-bit group. -/
def sextetChar (n : ℕ) : Char := base64Alphabet.getD n 'A'

/-- The six-bit group of a base64 character. -/
def charSextet (c : Char) : ℕ := base64Alphabet.indexOf c

/-- Modelled from the spec: grouping a byte stream into six-bit groups for
base64 (`encode` base64-encodes the packed bytes). -/
def bytesToSextets : List ℕ → List ℕ
  | [] => []
  | [b0] => [b0 / 4, b0 % 4 * 16]
  | [b0, b1] => [b0 / 4, b0 % 4 * 16 + b1 / 16, b1 % 16 * 4]
  | b0 :: b1 :: b2 :: rest =>
      b0 / 4 :: (b0 % 4 * 16 + b1 / 16) :: (b1 % 16 * 4 + b2 / 64) :: b2 % 64
        :: bytesToSextets rest

/-- Base64 padding characters for the final partial group. -/
def base64Pad : ℕ → List Char
  | 1 => ['=', '=']
  | 2 => ['=']
  | _ => []

/-- Modelled from the spec: base64 encoding of a byte stream (the `encode`
helper). -/
def base64Encode (bytes : List ℕ) : String :=
  ⟨(bytesToSextets bytes).map sextetChar ++ base64Pad (bytes.length % 3)⟩

/-- Modelled from the spec: regrouping six-bit groups into bytes for base64
decoding. -/
def sextetsToBytes : List ℕ → List ℕ
  | s0 :: s1 :: s2 :: s3 :: rest =>
      (s0 * 4 + s1 / 16) :: (s1 % 16 * 16 + s2 / 4) :: (s2 % 4 * 64 + s3)
        :: sextetsToBytes rest
  | [s0, s1] => [s0 * 4 + s1 / 16]
  | [s0, s1, s2] => [s0 * 4 + s1 / 16, s1 % 16 * 16 + s2 / 4]
  | _ => []

/-- Modelled from the spec: base64 decoding to raw bytes (the `decode`
helper). -/
def base64Decode (s : String) : List ℕ :=
  sextetsToBytes ((s.toList.filter (fun c => c ≠ '=')).map charSextet)

/-- The transient value object produced per capture frame: raw bytes
(base64-encoded here, as the source transmits them) plus a MIME-like tag. -/
structure PCMBlob where
  data : String
  mimeType : String
deriving DecidableEq, Repr

/-- Modelled from the spec: `encodeOutbound(samples) -> PCM Blob` — clamp
and scale each sample to a 16-bit signed integer, pack little-endian,
base64-encode, and tag with the fixed MIME type. -/
def encodeOutbound (samples : List ℚ) : PCMBlob :=
  { data := base64Encode (pcmBytes samples), mimeType := "audio/pcm;rate=16000" }

/-- Modelled from the spec: normalization of one decoded 16-bit integer
back to the floating-point range. -/
def dequantize (v : ℤ) : ℚ := (v : ℚ) / 32767

/-- Modelled from the spec: `decodeInbound` — base64-decode to raw bytes,
reinterpret as little-endian 16-bit PCM, normalize to the floating-point
range (mono channel, the sample-rate tag does not affect sample values). -/
def decodeInbound (data : String) : List ℚ :=
  (bytesToInts (base64Decode data)).map dequantize

/-! ## Frame lemmas for the four blocks of the message handler -/

@[simp] lemma stopMark_startTime (A : List Nat) (p : PlaybackSource) :
    (stopMark A p).startTime = p.startTime := by
  unfold stopMark; split <;> rfl

@[simp] lemma stopMark_duration (A : List Nat) (p : PlaybackSource) :
    (stopMark A p).duration = p.duration := by
  unfold stopMark; split <;> rfl

@[simp] lemma applyInput_mode (msg : ServerMessage) (s : AppState) :
    (applyInput msg s).mode = s.mode := by
  unfold applyInput; split <;> rfl

@[simp] lemma applyInput_status (msg : ServerMessage) (s : AppState) :
    (applyInput msg s).status = s.status := by
  unfold applyInput; split <;> rfl

@[simp] lemma applyInput_isRecording (msg : ServerMessage) (s : AppState) :
    (applyInput msg s).isRecording = s.isRecording := by
  unfold applyInput; split <;> rfl

@[simp] lemma applyInput_transcriptHistory (msg : ServerMessage) (s : AppState) :
    (applyInput msg s).transcriptHistory = s.transcriptHistory := by
  unfold applyInput; split <;> rfl

@[simp] lemma applyInput_sessionPromise (msg : ServerMessage) (s : AppState) :
    (applyInput msg s).sessionPromise = s.sessionPromise := by
  unfold applyInput; split <;> rfl

@[simp] lemma applyInput_outputAudioContext (msg : ServerMessage) (s : AppState) :
    (applyInput msg s).outputAudioContext = s.outputAudioContext := by
  unfold applyInput; split <;> rfl

@[simp] lemma applyInput_currentOutputTranscription (msg : ServerMessage) (s : AppState) :
    (applyInput msg s).currentOutputTranscription = s.currentOutputTranscription := by
  unfold applyInput; split <;> rfl

@[simp] lemma applyInput_nextStartTime (msg : ServerMessage) (s : AppState) :
    (applyInput msg s).nextStartTime = s.nextStartTime := by
  unfold applyInput; split <;> rfl

@[simp] lemma applyInput_audioSources (msg : ServerMessage) (s : AppState) :
    (applyInput msg s).audioSources = s.audioSources := by
  unfold applyInput; split <;> rfl

@[simp] lemma applyInput_sources (msg : ServerMessage) (s : AppState) :
    (applyInput msg s).sources = s.sources := by
  unfold applyInput; split <;> rfl

@[simp] lemma applyInput_nextSourceId (msg : ServerMessage) (s : AppState) :
    (applyInput msg s).nextSourceId = s.nextSourceId := by
  unfold applyInput; split <;> rfl

lemma applyInput_currentInputTranscription (msg : ServerMessage) (s : AppState) :
    (applyInput msg s).currentInputTranscription
      = s.currentInputTranscription ++ msg.inputTranscription.getD "" := by
  cases h : msg.inputTranscription <;>
    simp [applyInput, h, String.append_empty]

@[simp] lemma applyOutput_mode (msg : ServerMessage) (s : AppState) :
    (applyOutput msg s).mode = s.mode := by
  unfold applyOutput; split <;> [skip; rfl]
  split <;> rfl

@[simp] lemma applyOutput_isRecording (msg : ServerMessage) (s : AppState) :
    (applyOutput msg s).isRecording = s.isRecording := by
  unfold applyOutput; split <;> [skip; rfl]
  split <;> rfl

@[simp] lemma applyOutput_transcriptHistory (msg : ServerMessage) (s : AppState) :
    (applyOutput msg s).transcriptHistory = s.transcriptHistory := by
  unfold applyOutput; split <;> [skip; rfl]
  split <;> rfl

@[simp] lemma applyOutput_sessionPromise (msg : ServerMessage) (s : AppState) :
    (applyOutput msg s).sessionPromise = s.sessionPromise := by
  unfold applyOutput; split <;> [skip; rfl]
  split <;> rfl

@[simp] lemma applyOutput_outputAudioContext (msg : ServerMessage) (s : AppState) :
    (applyOutput msg s).outputAudioContext = s.outputAudioContext := by
  unfold applyOutput; split <;> [skip; rfl]
  split <;> rfl

@[simp] lemma applyOutput_currentInputTranscription (msg : ServerMessage) (s : AppState) :
    (applyOutput msg s).currentInputTranscription = s.currentInputTranscription := by
  unfold applyOutput; split <;> [skip; rfl]
  split <;> rfl

@[simp] lemma applyOutput_nextStartTime (msg : ServerMessage) (s : AppState) :
    (applyOutput msg s).nextStartTime = s.nextStartTime := by
  unfold applyOutput; split <;> [skip; rfl]
  split <;> rfl

@[simp] lemma applyOutput_audioSources (msg : ServerMessage) (s : AppState) :
    (applyOutput msg s).audioSources = s.audioSources := by
  unfold applyOutput; split <;> [skip; rfl]
  split <;> rfl

@[simp] lemma applyOutput_sources (msg : ServerMessage) (s : AppState) :
    (applyOutput msg s).sources = s.sources := by
  unfold applyOutput; split <;> [skip; rfl]
  split <;> rfl

@[simp] lemma applyOutput_nextSourceId (msg : ServerMessage) (s : AppState) :
    (applyOutput msg s).nextSourceId = s.nextSourceId := by
  unfold applyOutput; split <;> [skip; rfl]
  split <;> rfl

lemma applyOutput_currentOutputTranscription (msg : ServerMessage) (s : AppState) :
    (applyOutput msg s).currentOutputTranscription
      = s.currentOutputTranscription ++ msg.outputTranscription.getD "" := by
  cases h : msg.outputTranscription with
  | none => simp [applyOutput, h, String.append_empty]
  | some t =>
      unfold applyOutput
      rw [h]
      by_cases hm : s.mode = AppMode.conversation <;> simp [hm]

lemma applyOutput_status (msg : ServerMessage) (s : AppState) :
    (applyOutput msg s).status = s.status ∨ (applyOutput msg s).status = .speaking := by
  cases h : msg.outputTranscription with
  | none => left; simp [applyOutput, h]
  | some t =>
      unfold applyOutput
      rw [h]
      by_cases hm : s.mode = AppMode.conversation
      · right; simp [hm]
      · left; simp [hm]

@[simp] lemma applyAudio_mode (msg : ServerMessage) (now : ℚ) (s : AppState) :
    (applyAudio msg now s).mode = s.mode := by
  unfold applyAudio; split <;> [skip; rfl]
  split <;> rfl

@[simp] lemma applyAudio_status (msg : ServerMessage) (now : ℚ) (s : AppState) :
    (applyAudio msg now s).status = s.status := by
  unfold applyAudio; split <;> [skip; rfl]
  split <;> rfl

@[simp] lemma applyAudio_isRecording (msg : ServerMessage) (now : ℚ) (s : AppState) :
    (applyAudio msg now s).isRecording = s.isRecording := by
  unfold applyAudio; split <;> [skip; rfl]
  split <;> rfl

@[simp] lemma applyAudio_transcriptHistory (msg : ServerMessage) (now : ℚ) (s : AppState) :
    (applyAudio msg now s).transcriptHistory = s.transcriptHistory := by
  unfold applyAudio; split <;> [skip; rfl]
  split <;> rfl

@[simp] lemma applyAudio_sessionPromise (msg : ServerMessage) (now : ℚ) (s : AppState) :
    (applyAudio msg now s).sessionPromise = s.sessionPromise := by
  unfold applyAudio; split <;> [skip; rfl]
  split <;> rfl

@[simp] lemma applyAudio_outputAudioContext (msg : ServerMessage) (now : ℚ) (s : AppState) :
    (applyAudio msg now s).outputAudioContext = s.outputAudioContext := by
  unfold applyAudio; split <;> [skip; rfl]
  split <;> rfl

@[simp] lemma applyAudio_currentInputTranscription (msg : ServerMessage) (now : ℚ)
    (s : AppState) :
    (applyAudio msg now s).currentInputTranscription = s.currentInputTranscription := by
  unfold applyAudio; split <;> [skip; rfl]
  split <;> rfl

@[simp] lemma applyAudio_currentOutputTranscription (msg : ServerMessage) (now : ℚ)
    (s : AppState) :
    (applyAudio msg now s).currentOutputTranscription = s.currentOutputTranscription := by
  unfold applyAudio; split <;> [skip; rfl]
  split <;> rfl

/-- Case analysis on the audio-scheduling block: either nothing is
scheduled and the state is untouched, or one new source is scheduled at
`max cursor now` and the cursor advances by its duration. -/
lemma applyAudio_spec (msg : ServerMessage) (now : ℚ) (s : AppState) :
    applyAudio msg now s = s ∨
    ∃ dur, msg.audioDuration = some dur ∧
      s.outputAudioContext = true ∧ s.mode = .conversation ∧
      applyAudio msg now s =
        { s with
          nextStartTime := max s.nextStartTime now + dur
          audioSources := s.audioSources ++ [s.nextSourceId]
          sources := s.sources ++ [⟨s.nextSourceId, max s.nextStartTime now, dur, false⟩]
          nextSourceId := s.nextSourceId + 1 } := by
  cases h : msg.audioDuration with
  | none => left; simp [applyAudio, h]
  | some dur =>
      by_cases hc : s.outputAudioContext = true ∧ s.mode = .conversation
      · right
        exact ⟨dur, rfl, hc.1, hc.2, by simp [applyAudio, h, hc]⟩
      · left; simp [applyAudio, h, hc]

@[simp] lemma applyTurn_mode (msg : ServerMessage) (s : AppState) :
    (applyTurn msg s).mode = s.mode := by
  unfold applyTurn; split <;> rfl

@[simp] lemma applyTurn_status (msg : ServerMessage) (s : AppState) :
    (applyTurn msg s).status = s.status := by
  unfold applyTurn; split <;> rfl

@[simp] lemma applyTurn_isRecording (msg : ServerMessage) (s : AppState) :
    (applyTurn msg s).isRecording = s.isRecording := by
  unfold applyTurn; split <;> rfl

@[simp] lemma applyTurn_sessionPromise (msg : ServerMessage) (s : AppState) :
    (applyTurn msg s).sessionPromise = s.sessionPromise := by
  unfold applyTurn; split <;> rfl

@[simp] lemma applyTurn_outputAudioContext (msg : ServerMessage) (s : AppState) :
    (applyTurn msg s).outputAudioContext = s.outputAudioContext := by
  unfold applyTurn; split <;> rfl

@[simp] lemma applyTurn_nextStartTime (msg : ServerMessage) (s : AppState) :
    (applyTurn msg s).nextStartTime = s.nextStartTime := by
  unfold applyTurn; split <;> rfl

@[simp] lemma applyTurn_audioSources (msg : ServerMessage) (s : AppState) :
    (applyTurn msg s).audioSources = s.audioSources := by
  unfold applyTurn; split <;> rfl

@[simp] lemma applyTurn_sources (msg : ServerMessage) (s : AppState) :
    (applyTurn msg s).sources = s.sources := by
  unfold applyTurn; split <;> rfl

@[simp] lemma applyTurn_nextSourceId (msg : ServerMessage) (s : AppState) :
    (applyTurn msg s).nextSourceId = s.nextSourceId := by
  unfold applyTurn; split <;> rfl

lemma applyTurn_false (msg : ServerMessage) (s : AppState)
    (h : msg.turnComplete = false) : applyTurn msg s = s := by
  simp [applyTurn, h]

/-- The finalization block on a turn-complete message: history gains the
user entry (when the trimmed inbound buffer is non-empty) followed by the
assistant entry (when the trimmed outbound buffer is non-empty and the mode
is conversation), and both buffers and live displays are cleared. -/
lemma applyTurn_true (msg : ServerMessage) (s : AppState)
    (h : msg.turnComplete = true) :
    (applyTurn msg s).transcriptHistory
      = s.transcriptHistory
        ++ (if s.currentInputTranscription.trim ≠ "" then
              [⟨.user, s.currentInputTranscription.trim⟩] else [])
        ++ (if s.currentOutputTranscription.trim ≠ "" ∧ s.mode = .conversation then
              [⟨.ai, s.currentOutputTranscription.trim⟩] else []) ∧
    (applyTurn msg s).currentInputTranscription = "" ∧
    (applyTurn msg s).currentOutputTranscription = "" ∧
    (applyTurn msg s).currentUserTranscript = "" ∧
    (applyTurn msg s).currentAiTranscript = "" := by
  simp [applyTurn, h]

/-! ## Frame lemmas for the remaining transitions -/

lemma stopSession_transcriptHistory (s : AppState) :
    (stopSession s).transcriptHistory = s.transcriptHistory := by
  unfold stopSession; split <;> rfl

lemma stopSession_buffersCleared (s : AppState) :
    (stopSession s).currentInputTranscription = "" ∧
    (stopSession s).currentOutputTranscription = "" ∧
    (stopSession s).currentUserTranscript = "" ∧
    (stopSession s).currentAiTranscript = "" := by
  unfold stopSession; split <;> exact ⟨rfl, rfl, rfl, rfl⟩

lemma stopSession_core (s : AppState) :
    (stopSession s).isRecording = false ∧
    (stopSession s).status = .idle ∧
    (stopSession s).sessionPromise = false ∧
    (stopSession s).mediaStream = false ∧
    (stopSession s).scriptProcessor = false ∧
    (stopSession s).mediaStreamSource = false ∧
    (stopSession s).inputAudioContext = false ∧
    (stopSession s).outputAudioContext = false := by
  unfold stopSession
  split
  · exact ⟨rfl, rfl, rfl, rfl, rfl, rfl, rfl, rfl⟩
  · next h =>
      refine ⟨rfl, rfl, rfl, rfl, rfl, rfl, rfl, ?_⟩
      simpa using h

lemma stopSession_nextStartTime (s : AppState) :
    (stopSession s).nextStartTime = s.nextStartTime := by
  unfold stopSession; split <;> rfl

lemma stopSession_sources_of_open (s : AppState) (h : s.outputAudioContext = true) :
    (stopSession s).sources = s.sources.map (stopMark s.audioSources) ∧
    (stopSession s).audioSources = [] := by
  unfold stopSession
  rw [if_pos h]
  exact ⟨rfl, rfl⟩

lemma stopSession_of_closed (s : AppState) (h : s.outputAudioContext = false) :
    (stopSession s).sources = s.sources ∧
    (stopSession s).audioSources = s.audioSources := by
  unfold stopSession
  rw [if_neg (by simp [h])]
  exact ⟨rfl, rfl⟩

lemma startSession_noKey (micOk : Bool) (s : AppState) :
    startSession false micOk s = { s with status := .error } := by
  simp [startSession]

lemma startSession_noMic (s : AppState) :
    startSession true false s
      = { s with status := .error, isRecording := false, summary := none } := by
  simp [startSession]

lemma startSession_ok (s : AppState) :
    startSession true true s
      = { s with
          isRecording := true
          status := .connecting
          summary := none
          mediaStream := true
          inputAudioContext := true
          outputAudioContext := true
          nextStartTime := 0
          sessionPromise := true
          sources := []
          nextSourceId := 0 } := by
  simp [startSession]

lemma startSession_transcriptHistory (k m : Bool) (s : AppState) :
    (startSession k m s).transcriptHistory = s.transcriptHistory := by
  unfold startSession; split <;> [rfl; (split <;> rfl)]

lemma startSession_audioSources (k m : Bool) (s : AppState) :
    (startSession k m s).audioSources = s.audioSources := by
  unfold startSession; split <;> [rfl; (split <;> rfl)]

lemma onended_spec (s : AppState) (i : Nat) :
    (onended s i).audioSources = s.audioSources.erase i ∧
    (onended s i).isRecording = s.isRecording ∧
    (onended s i).sessionPromise = s.sessionPromise ∧
    (onended s i).outputAudioContext = s.outputAudioContext ∧
    (onended s i).sources = s.sources ∧
    (onended s i).nextStartTime = s.nextStartTime ∧
    (onended s i).transcriptHistory = s.transcriptHistory ∧
    ((onended s i).status = s.status ∨ (onended s i).status = .listening) := by
  simp only [onended]
  split
  · exact ⟨rfl, rfl, rfl, rfl, rfl, rfl, rfl, Or.inr rfl⟩
  · exact ⟨rfl, rfl, rfl, rfl, rfl, rfl, rfl, Or.inl rfl⟩

lemma setModeClick_spec (m : AppMode) (s : AppState) :
    setModeClick m s = s ∨
    (s.isRecording = false ∧ setModeClick m s = { s with mode := m }) := by
  unfold setModeClick
  by_cases h : s.isRecording
  · left; simp [h]
  · right; simp [h]

/-! ## Reachability invariants -/

lemma ctrlInv_init : CtrlInv initState := by
  refine ⟨fun h => by simp [initState] at h, fun h => ?_, fun h => by simp [initState] at h⟩
  rcases h with h | h | h <;> simp [initState] at h

lemma ctrlInv_stopSession (s : AppState) (ih : CtrlInv s) : CtrlInv (stopSession s) := by
  obtain ⟨hrec, hstat, hsess, -, -, -, -, hctx⟩ := stopSession_core s
  refine ⟨fun h => by rw [hsess] at h; exact absurd h (by simp),
          fun h => by rw [hstat] at h; rcases h with h | h | h <;> exact absurd h (by simp),
          fun h => ?_⟩
  exfalso
  by_cases ho : s.outputAudioContext = true
  · rw [(stopSession_sources_of_open s ho).2] at h
    exact h rfl
  · have hc : s.outputAudioContext = false := by
      cases hb : s.outputAudioContext
      · rfl
      · exact absurd hb ho
    rw [(stopSession_of_closed s hc).2] at h
    have := (ih.2.2 h).2
    rw [hc] at this
    exact absurd this (by simp)

lemma ctrlInv_step {s s' : AppState} {e : Event} (ih : CtrlInv s) (hst : Step s e s') :
    CtrlInv s' := by
  cases hst with
  | start k m hrec hstatus =>
      have hsess : s.sessionPromise = false := by
        cases hb : s.sessionPromise
        · rfl
        · rw [ih.1 hb] at hrec; exact absurd hrec (by simp)
      have hsrc : s.audioSources = [] := by
        by_cases h : s.audioSources = []
        · exact h
        · rw [(ih.2.2 h).1] at hsess; exact absurd hsess (by simp)
      cases k with
      | false =>
          rw [startSession_noKey]
          exact ⟨fun h => by rw [hsess] at h; exact absurd h (by simp),
                 fun h => by rcases h with h | h | h <;> simp_all,
                 fun h => by rw [hsrc] at h; exact absurd rfl h⟩
      | true =>
          cases m with
          | false =>
              rw [startSession_noMic]
              exact ⟨fun h => by rw [hsess] at h; exact absurd h (by simp),
                     fun h => by rcases h with h | h | h <;> simp_all,
                     fun h => by rw [hsrc] at h; exact absurd rfl h⟩
          | true =>
              rw [startSession_ok]
              exact ⟨fun _ => rfl, fun _ => rfl, fun _ => ⟨rfl, rfl⟩⟩
  | stop => exact ctrlInv_stopSession s ih
  | opened hs =>
      have hrec := ih.1 hs
      exact ⟨fun _ => hrec, fun _ => hrec, fun h => ⟨hs, (ih.2.2 h).2⟩⟩
  | message msg now hs =>
      have hrec := ih.1 hs
      have hrec' : (onmessage s msg now).isRecording = true := by
        simp [onmessage, hrec]
      have hsess' : (onmessage s msg now).sessionPromise = true := by
        simp [onmessage, hs]
      refine ⟨fun _ => hrec', fun _ => hrec', fun h => ⟨hsess', ?_⟩⟩
      rcases applyAudio_spec msg now (applyOutput msg (applyInput msg s)) with
        hsp | ⟨dur, -, hctx, -, hsp⟩
      · have hsrc2 : (onmessage s msg now).audioSources = s.audioSources := by
          simp [onmessage, hsp]
        have hctx2 : (onmessage s msg now).outputAudioContext = s.outputAudioContext := by
          simp [onmessage, hsp]
        rw [hsrc2] at h
        rw [hctx2]
        exact (ih.2.2 h).2
      · have hctx2 : (onmessage s msg now).outputAudioContext = s.outputAudioContext := by
          simp [onmessage]
        rw [hctx2]
        simpa using hctx
  | ended i hi =>
      obtain ⟨hsrc, hrec, hsess, hctx, -, -, -, hstat⟩ := onended_spec s i
      have hne : s.audioSources ≠ [] := by
        intro h; rw [h] at hi; exact absurd hi (by simp)
      have hrecs : s.isRecording = true := ih.1 (ih.2.2 hne).1
      refine ⟨fun _ => by rw [hrec]; exact hrecs,
              fun _ => by rw [hrec]; exact hrecs,
              fun h => ?_⟩
      rw [hsrc] at h
      have hne' : s.audioSources ≠ [] := by
        intro hz; rw [hz] at h; exact h rfl
      rw [hsess, hctx]
      exact ih.2.2 hne'
  | errorEvt hs => exact ctrlInv_stopSession _ ⟨fun _ => ih.1 hs, fun _ => ih.1 hs, ih.2.2⟩
  | closeEvt hs => exact ctrlInv_stopSession s ih
  | setMode m =>
      rcases setModeClick_spec m s with h | ⟨hrec, h⟩ <;> rw [h]
      · exact ih
      · exact ⟨ih.1, ih.2.1, ih.2.2⟩

lemma reachable_ctrlInv {s : AppState} (h : Reachable s) : CtrlInv s := by
  induction h with
  | init => exact ctrlInv_init
  | step hr hstep ih => exact ctrlInv_step ih hstep

/-! ## The playback scheduling invariant -/

lemma chainOk_concat {l : List PlaybackSource} {x : PlaybackSource}
    (hc : chainOk l)
    (hl : ∀ p, l.getLast? = some p → p.startTime + p.duration ≤ x.startTime) :
    chainOk (l ++ [x]) := by
  induction l with
  | nil => trivial
  | cons p rest ih =>
      cases rest with
      | nil =>
          exact ⟨hl p rfl, trivial⟩
      | cons q rest2 =>
          refine ⟨hc.1, ih hc.2 ?_⟩
          intro r hr
          exact hl r (by rwa [List.getLast?_cons_cons])

lemma chainOk_map_stopMark (A : List Nat) :
    ∀ l : List PlaybackSource, chainOk l → chainOk (l.map (stopMark A))
  | [] , _ => trivial
  | [p], _ => trivial
  | p :: q :: rest, h => by
      refine ⟨?_, chainOk_map_stopMark A (q :: rest) h.2⟩
      simpa using h.1

lemma chainOk_getD (d : PlaybackSource) :
    ∀ l : List PlaybackSource, chainOk l → ∀ n, n + 1 < l.length →
      (l.getD n d).startTime + (l.getD n d).duration ≤ (l.getD (n + 1) d).startTime
  | [], _, n, h => absurd h (by simp)
  | [p], _, n, h => absurd h (by simp)
  | p :: q :: rest, h, 0, _ => by simpa using h.1
  | p :: q :: rest, h, n + 1, hl => by
      have := chainOk_getD d (q :: rest) h.2 n (by simpa using hl)
      simpa using this

lemma schedInv_init : SchedInv initState := by
  exact ⟨trivial, fun p hp => by simp [initState] at hp⟩

lemma schedInv_stopSession (s : AppState) (ih : SchedInv s) :
    SchedInv (stopSession s) := by
  have hnt := stopSession_nextStartTime s
  by_cases ho : s.outputAudioContext = true
  · obtain ⟨hsrc, -⟩ := stopSession_sources_of_open s ho
    constructor
    · rw [hsrc]
      exact chainOk_map_stopMark _ _ ih.1
    · intro p hp
      rw [hsrc, List.getLast?_map] at hp
      rw [hnt]
      cases hq : s.sources.getLast? with
      | none => rw [hq] at hp; exact absurd hp (by simp)
      | some q =>
          rw [hq] at hp
          have hpq : p = stopMark s.audioSources q := by simpa using hp.symm
          rw [hpq]
          simpa using ih.2 q hq
  · have hc : s.outputAudioContext = false := by
      cases hb : s.outputAudioContext
      · rfl
      · exact absurd hb ho
    obtain ⟨hsrc, -⟩ := stopSession_of_closed s hc
    constructor
    · rw [hsrc]
      exact ih.1
    · intro p hp
      rw [hsrc] at hp
      rw [hnt]
      exact ih.2 p hp

lemma schedInv_step {s s' : AppState} {e : Event} (ih : SchedInv s) (hst : Step s e s') :
    SchedInv s' := by
  cases hst with
  | start k m hrec hstatus =>
      cases k with
      | false => rw [startSession_noKey]; exact ih
      | true =>
          cases m with
          | false => rw [startSession_noMic]; exact ih
          | true =>
              rw [startSession_ok]
              exact ⟨trivial, fun p hp => by simp at hp⟩
  | stop => exact schedInv_stopSession s ih
  | opened hs => exact ih
  | message msg now hs =>
      have hX1 : (applyOutput msg (applyInput msg s)).sources = s.sources := by simp
      have hX2 : (applyOutput msg (applyInput msg s)).nextStartTime = s.nextStartTime := by
        simp
      rcases applyAudio_spec msg now (applyOutput msg (applyInput msg s)) with
        hsp | ⟨dur, -, -, -, hsp⟩
      · have hs1 : (onmessage s msg now).sources = s.sources := by
          simp [onmessage, hsp, hX1]
        have hs2 : (onmessage s msg now).nextStartTime = s.nextStartTime := by
          simp [onmessage, hsp, hX2]
        refine ⟨?_, fun p hp => ?_⟩
        · rw [hs1]; exact ih.1
        · rw [hs1] at hp
          rw [hs2]
          exact ih.2 p hp
  
      · have hs1 : (onmessage s msg now).sources
            = s.sources
              ++ [⟨(applyOutput msg (applyInput msg s)).nextSourceId,
                   max s.nextStartTime now, dur, false⟩] := by
          simp [onmessage, hsp, hX1, hX2]
        have hs2 : (onmessage s msg now).nextStartTime = max s.nextStartTime now + dur := by
          simp [onmessage, hsp, hX2]
        refine ⟨?_, fun p hp => ?_⟩
        · rw [hs1]
          refine chainOk_concat ih.1 fun p hp => ?_
          exact le_trans (ih.2 p hp) (le_max_left _ _)
        · rw [hs1, List.getLast?_concat] at hp
          rw [hs2]
          cases hp
          simp
  | ended i hi =>
      obtain ⟨-, -, -, -, hsrc, hnt, -, -⟩ := onended_spec s i
      refine ⟨?_, fun p hp => ?_⟩
      · rw [hsrc]; exact ih.1
      · rw [hsrc] at hp
        rw [hnt]
        exact ih.2 p hp
  | errorEvt hs => exact schedInv_stopSession _ ih
  | closeEvt hs => exact schedInv_stopSession s ih
  | setMode m =>
      rcases setModeClick_spec m s with h | ⟨-, h⟩ <;> rw [h]
      · exact ih
      · exact ih

lemma reachable_schedInv {s : AppState} (h : Reachable s) : SchedInv s := by
  induction h with
  | init => exact schedInv_init
  | step hr hstep ih => exact schedInv_step ih hstep

/-! ## Transcript aggregation across a turn -/

lemma inFrags_concat (ms : List ServerMessage) (m : ServerMessage) :
    inFrags (ms ++ [m]) = inFrags ms ++ m.inputTranscription.getD "" := by
  induction ms with
  | nil => simp [inFrags, String.empty_append, String.append_empty]
  | cons a as ih => simp [inFrags, ih, String.append_assoc]

lemma outFrags_concat (ms : List ServerMessage) (m : ServerMessage) :
    outFrags (ms ++ [m]) = outFrags ms ++ m.outputTranscription.getD "" := by
  induction ms with
  | nil => simp [outFrags, String.empty_append, String.append_empty]
  | cons a as ih => simp [outFrags, ih, String.append_assoc]

/-- A message without the turn-complete flag only extends the two buffers by
its fragments; history and mode are untouched. -/
lemma onmessage_nonTurn (s : AppState) (msg : ServerMessage) (now : ℚ)
    (h : msg.turnComplete = false) :
    (onmessage s msg now).currentInputTranscription
      = s.currentInputTranscription ++ msg.inputTranscription.getD "" ∧
    (onmessage s msg now).currentOutputTranscription
      = s.currentOutputTranscription ++ msg.outputTranscription.getD "" ∧
    (onmessage s msg now).transcriptHistory = s.transcriptHistory ∧
    (onmessage s msg now).mode = s.mode := by
  unfold onmessage
  rw [applyTurn_false _ _ h]
  refine ⟨?_, ?_, ?_, ?_⟩
  · simp [applyInput_currentInputTranscription]
  · simp [applyOutput_currentOutputTranscription]
  · simp
  · simp

/-- Running the messages of an unfinished turn accumulates exactly the
concatenated fragments into the buffers and leaves history and mode
unchanged. -/
lemma processMessages_nonTurn (msgs : List (ServerMessage × ℚ)) :
    ∀ s : AppState, (∀ p ∈ msgs, p.1.turnComplete = false) →
      (processMessages s msgs).currentInputTranscription
        = s.currentInputTranscription ++ inFrags (msgs.map Prod.fst) ∧
      (processMessages s msgs).currentOutputTranscription
        = s.currentOutputTranscription ++ outFrags (msgs.map Prod.fst) ∧
      (processMessages s msgs).transcriptHistory = s.transcriptHistory ∧
      (processMessages s msgs).mode = s.mode := by
  induction msgs with
  | nil =>
      intro s h
      exact ⟨(String.append_empty _).symm, (String.append_empty _).symm, rfl, rfl⟩
  | cons p ps ih =>
      intro s h
      have hp : p.1.turnComplete = false := h p (List.mem_cons_self p ps)
      have hrest : ∀ q ∈ ps, q.1.turnComplete = false :=
        fun q hq => h q (List.mem_cons_of_mem _ hq)
      obtain ⟨h1, h2, h3, h4⟩ := onmessage_nonTurn s p.1 p.2 hp
      obtain ⟨g1, g2, g3, g4⟩ := ih (onmessage s p.1 p.2) hrest
      have e : processMessages s (p :: ps) = processMessages (onmessage s p.1 p.2) ps := rfl
      rw [e]
      refine ⟨?_, ?_, ?_, ?_⟩
      · rw [g1, h1]
        simp [inFrags, String.append_assoc]
      · rw [g2, h2]
        simp [outFrags, String.append_assoc]
      · rw [g3, h3]
      · rw [g4, h4]

/-- A turn-complete message finalizes the buffers extended by its own
fragments: history gains the trimmed user entry then the trimmed assistant
entry (the latter only in conversation mode), empty-after-trim buffers
produce no entry, and buffers and live displays are cleared. -/
lemma onmessage_turn (s : AppState) (msg : ServerMessage) (now : ℚ)
    (h : msg.turnComplete = true) :
    (onmessage s msg now).transcriptHistory
      = s.transcriptHistory
        ++ (if (s.currentInputTranscription ++ msg.inputTranscription.getD "").trim ≠ "" then
              [⟨.user, (s.currentInputTranscription ++ msg.inputTranscription.getD "").trim⟩]
            else [])
        ++ (if (s.currentOutputTranscription ++ msg.outputTranscription.getD "").trim ≠ ""
              ∧ s.mode = .conversation then
              [⟨.ai, (s.currentOutputTranscription ++ msg.outputTranscription.getD "").trim⟩]
            else []) ∧
    (onmessage s msg now).currentInputTranscription = "" ∧
    (onmessage s msg now).currentOutputTranscription = "" ∧
    (onmessage s msg now).currentUserTranscript = "" ∧
    (onmessage s msg now).currentAiTranscript = "" := by
  unfold onmessage
  obtain ⟨h1, h2, h3, h4, h5⟩ :=
    applyTurn_true msg (applyAudio msg now (applyOutput msg (applyInput msg s))) h
  refine ⟨?_, h2, h3, h4, h5⟩
  rw [h1]
  simp [applyInput_currentInputTranscription, applyOutput_currentOutputTranscription]

/-! ## Concrete reachable states used as witnesses -/

lemma reachable_activeState : Reachable activeState :=
  Reachable.step
    (Reachable.step Reachable.init (Step.start initState true true rfl (by decide)))
    (Step.opened (startSession true true initState) rfl)

lemma reachable_twoSourceState : Reachable twoSourceState :=
  Reachable.step
    (Reachable.step reachable_activeState
      (Step.message activeState audioMsg 0 rfl))
    (Step.message (onmessage activeState audioMsg 0) audioMsg 0 (by decide))

/-! ## The claims -/

/-- Claim C1: for every sequence of inbound messages ending in a
turn-complete signal (processed from the start of a turn, i.e. with empty
buffers), the finalized history gains at most one user entry and, in
conversation mode only, at most one assistant entry; each entry's text is
the concatenation of that turn's transcription fragments trimmed of
surrounding whitespace, a buffer empty after trimming produces no entry,
and both buffers and their live-display counterparts are cleared. -/
theorem turn_finalization_appends_trimmed_entries
    (s : AppState) (msgs : List (ServerMessage × ℚ)) (m : ServerMessage) (now : ℚ)
    (hbufIn : s.currentInputTranscription = "")
    (hbufOut : s.currentOutputTranscription = "")
    (hmsgs : ∀ p ∈ msgs, p.1.turnComplete = false)
    (hm : m.turnComplete = true) :
    (processMessages s (msgs ++ [(m, now)])).transcriptHistory
      = s.transcriptHistory
        ++ (if (inFrags (msgs.map Prod.fst ++ [m])).trim ≠ "" then
              [⟨.user, (inFrags (msgs.map Prod.fst ++ [m])).trim⟩] else [])
        ++ (if (outFrags (msgs.map Prod.fst ++ [m])).trim ≠ ""
              ∧ s.mode = .conversation then
              [⟨.ai, (outFrags (msgs.map Prod.fst ++ [m])).trim⟩] else []) ∧
    (processMessages s (msgs ++ [(m, now)])).currentInputTranscription = "" ∧
    (processMessages s (msgs ++ [(m, now)])).currentOutputTranscription = "" ∧
    (processMessages s (msgs ++ [(m, now)])).currentUserTranscript = "" ∧
    (processMessages s (msgs ++ [(m, now)])).currentAiTranscript = "" := by
  have e : processMessages s (msgs ++ [(m, now)])
      = onmessage (processMessages s msgs) m now := by
    simp [processMessages, List.foldl_append]
  obtain ⟨b1, b2, b3, b4⟩ := processMessages_nonTurn msgs s hmsgs
  obtain ⟨t1, t2, t3, t4, t5⟩ := onmessage_turn (processMessages s msgs) m now hm
  rw [e]
  refine ⟨?_, t2, t3, t4, t5⟩
  rw [t1, b1, b2, b3, b4, hbufIn, hbufOut,
      String.empty_append, String.empty_append,
      inFrags_concat, outFrags_concat]

/-- Witness for claim C1: the spec scenario — fragments "salam" then
" alekum", then a bare turn-complete message — finalizes exactly the entry
(user, "salam alekum") and clears the buffers. -/
theorem turn_finalization_appends_trimmed_entries_witness :
    (processMessages initState
        ([(⟨some "salam", none, none, false⟩, 0), (⟨some " alekum", none, none, false⟩, 0)]
          ++ [(⟨none, none, none, true⟩, 0)])).transcriptHistory
      = initState.transcriptHistory
        ++ (if (inFrags ([(⟨some "salam", none, none, false⟩, (0 : ℚ)),
                (⟨some " alekum", none, none, false⟩, 0)].map Prod.fst
                  ++ [⟨none, none, none, true⟩])).trim ≠ "" then
              [⟨.user, (inFrags ([(⟨some "salam", none, none, false⟩, (0 : ℚ)),
                (⟨some " alekum", none, none, false⟩, 0)].map Prod.fst
                  ++ [⟨none, none, none, true⟩])).trim⟩] else [])
        ++ (if (outFrags ([(⟨some "salam", none, none, false⟩, (0 : ℚ)),
                (⟨some " alekum", none, none, false⟩, 0)].map Prod.fst
                  ++ [⟨none, none, none, true⟩])).trim ≠ ""
              ∧ initState.mode = .conversation then
              [⟨.ai, (outFrags ([(⟨some "salam", none, none, false⟩, (0 : ℚ)),
                (⟨some " alekum", none, none, false⟩, 0)].map Prod.fst
                  ++ [⟨none, none, none, true⟩])).trim⟩] else []) ∧
    (processMessages initState
        ([(⟨some "salam", none, none, false⟩, 0), (⟨some " alekum", none, none, false⟩, 0)]
          ++ [(⟨none, none, none, true⟩, 0)])).currentInputTranscription = "" ∧
    (processMessages initState
        ([(⟨some "salam", none, none, false⟩, 0), (⟨some " alekum", none, none, false⟩, 0)]
          ++ [(⟨none, none, none, true⟩, 0)])).currentOutputTranscription = "" ∧
    (processMessages initState
        ([(⟨some "salam", none, none, false⟩, 0), (⟨some " alekum", none, none, false⟩, 0)]
          ++ [(⟨none, none, none, true⟩, 0)])).currentUserTranscript = "" ∧
    (processMessages initState
        ([(⟨some "salam", none, none, false⟩, 0), (⟨some " alekum", none, none, false⟩, 0)]
          ++ [(⟨none, none, none, true⟩, 0)])).currentAiTranscript = "" :=
  turn_finalization_appends_trimmed_entries initState
    [(⟨some "salam", none, none, false⟩, 0), (⟨some " alekum", none, none, false⟩, 0)]
    ⟨none, none, none, true⟩ 0 rfl rfl (by decide) rfl

/-- Claim C2 counterexample: at a reachable state with an active session,
the transport-error callback does NOT leave the controller in the `error`
state — the teardown it invokes resets the status, so the final status is
`idle`.  This refutes the claim that the controller remains in `error`. -/
theorem remote_error_final_status_counterexample :
    Reachable activeState ∧ activeState.sessionPromise = true ∧
    (onerror activeState).status = .idle ∧
    ¬ (onerror activeState).status = .error :=
  ⟨reachable_activeState, rfl, by decide, by decide⟩

/-- Claim C2 as amended: on a transport-level error during an active
session the callback assigns `error` only transiently — the `stopSession`
teardown it then invokes performs the full resource teardown and leaves the
final state `idle` (session, stream, capture graph and both contexts
discarded, active-source set empty, buffers cleared). -/
theorem remote_error_teardown_to_idle (s : AppState) (h : Reachable s)
    (hs : s.sessionPromise = true) :
    (onerror s).status = .idle ∧
    (onerror s).sessionPromise = false ∧
    (onerror s).mediaStream = false ∧
    (onerror s).scriptProcessor = false ∧
    (onerror s).mediaStreamSource = false ∧
    (onerror s).inputAudioContext = false ∧
    (onerror s).outputAudioContext = false ∧
    (onerror s).audioSources = [] ∧
    (onerror s).currentInputTranscription = "" ∧
    (onerror s).currentOutputTranscription = "" ∧
    (onerror s).currentUserTranscript = "" ∧
    (onerror s).currentAiTranscript = "" := by
  have hcore := stopSession_core { s with status := Status.error }
  have hbuf := stopSession_buffersCleared { s with status := Status.error }
  refine ⟨hcore.2.1, hcore.2.2.1, hcore.2.2.2.1, hcore.2.2.2.2.1,
          hcore.2.2.2.2.2.1, hcore.2.2.2.2.2.2.1, hcore.2.2.2.2.2.2.2, ?_,
          hbuf.1, hbuf.2.1, hbuf.2.2.1, hbuf.2.2.2⟩
  show (stopSession { s with status := Status.error }).audioSources = []
  by_cases ho : s.outputAudioContext = true
  · exact (stopSession_sources_of_open { s with status := Status.error } ho).2
  · have hc : s.outputAudioContext = false := by
      cases hb : s.outputAudioContext
      · rfl
      · exact absurd hb ho
    rw [(stopSession_of_closed { s with status := Status.error } hc).2]
    show s.audioSources = []
    by_cases hz : s.audioSources = []
    · exact hz
    · exact absurd ((reachable_ctrlInv h).2.2 hz).2 (by simp [hc])

/-- Witness for the amended claim C2, at the concrete active session. -/
theorem remote_error_teardown_to_idle_witness :
    (onerror activeState).status = .idle ∧
    (onerror activeState).sessionPromise = false ∧
    (onerror activeState).mediaStream = false ∧
    (onerror activeState).scriptProcessor = false ∧
    (onerror activeState).mediaStreamSource = false ∧
    (onerror activeState).inputAudioContext = false ∧
    (onerror activeState).outputAudioContext = false ∧
    (onerror activeState).audioSources = [] ∧
    (onerror activeState).currentInputTranscription = "" ∧
    (onerror activeState).currentOutputTranscription = "" ∧
    (onerror activeState).currentUserTranscript = "" ∧
    (onerror activeState).currentAiTranscript = "" :=
  remote_error_teardown_to_idle activeState reachable_activeState rfl

/-- Claim C3: in every reachable state, consecutively scheduled playback
sources of the session do not overlap — each source starts no earlier than
the end of its predecessor (the cursor only advances). -/
theorem playback_schedule_nonoverlapping (s : AppState) (h : Reachable s) (n : Nat)
    (hn : n + 1 < s.sources.length) :
    (s.sources.getD n ⟨0, 0, 0, false⟩).startTime
        + (s.sources.getD n ⟨0, 0, 0, false⟩).duration
      ≤ (s.sources.getD (n + 1) ⟨0, 0, 0, false⟩).startTime :=
  chainOk_getD _ s.sources (reachable_schedInv h).1 n hn

/-- Witness for claim C3 at the reachable state with two scheduled
sources. -/
theorem playback_schedule_nonoverlapping_witness :
    (twoSourceState.sources.getD 0 ⟨0, 0, 0, false⟩).startTime
        + (twoSourceState.sources.getD 0 ⟨0, 0, 0, false⟩).duration
      ≤ (twoSourceState.sources.getD 1 ⟨0, 0, 0, false⟩).startTime :=
  playback_schedule_nonoverlapping twoSourceState reachable_twoSourceState 0 (by decide)

/-- Claim C4: `stopSession` is idempotent — a second call produces exactly
the same state, the result is the idle state, and (being a total function
whose session close is guarded by try/catch in the source) it is safe to
call in any state, including when already idle. -/
theorem stop_idempotent (s : AppState) :
    stopSession (stopSession s) = stopSession s ∧ (stopSession s).status = .idle := by
  constructor
  · by_cases h : s.outputAudioContext = true <;> simp [stopSession, h]
  · exact (stopSession_core s).2.1

/-- Claim C5: when the API key credential is missing, `startSession` only
sets the status to `error`: the microphone is not acquired (the media
stream field is untouched, and the outcome does not depend on whether the
microphone would have been granted) and no remote session is opened. -/
theorem missing_key_start_errors_without_side_effects
    (s : AppState) (micOk : Bool) (h : s.status = .idle) :
    startSession false micOk s = { s with status := .error } ∧
    (startSession false micOk s).mediaStream = s.mediaStream ∧
    (startSession false micOk s).sessionPromise = s.sessionPromise ∧
    startSession false micOk s = startSession false (!micOk) s := by
  refine ⟨startSession_noKey micOk s, ?_, ?_, ?_⟩
  · rw [startSession_noKey]
  · rw [startSession_noKey]
  · rw [startSession_noKey, startSession_noKey]

/-- Witness for claim C5 at the initial (idle) state. -/
theorem missing_key_start_errors_without_side_effects_witness :
    startSession false true initState = { initState with status := .error } ∧
    (startSession false true initState).mediaStream = initState.mediaStream ∧
    (startSession false true initState).sessionPromise = initState.sessionPromise ∧
    startSession false true initState = startSession false (!true) initState :=
  missing_key_start_errors_without_side_effects initState true rfl

/-- Claim C7: while a session is active (status `connecting`, `listening`
or `speaking`), a click on either mode button has no effect — across all
reachable states such a status implies the recording flag, which guards the
mode switch. -/
theorem mode_locked_while_active (s : AppState) (h : Reachable s)
    (hst : s.status = .connecting ∨ s.status = .listening ∨ s.status = .speaking)
    (m : AppMode) :
    setModeClick m s = s := by
  have hrec := (reachable_ctrlInv h).2.1 hst
  simp [setModeClick, hrec]

/-- Witness for claim C7: switching to transcription mode during the
listening state of the concrete active session does nothing. -/
theorem mode_locked_while_active_witness :
    setModeClick .transcription activeState = activeState :=
  mode_locked_while_active activeState reachable_activeState
    (Or.inr (Or.inl rfl)) .transcription

/-- Claim C8: every transition appends to the finalized history (entries
appear in the order their turns completed and are never reordered or
removed), and what a single transition appends is at most one user entry
followed by at most one assistant entry. -/
theorem history_append_ordered {s s' : AppState} {e : Event} (h : Step s e s') :
    ∃ us as, s'.transcriptHistory = s.transcriptHistory ++ us ++ as ∧
      (∀ x ∈ us, x.speaker = .user) ∧ (∀ x ∈ as, x.speaker = .ai) ∧
      us.length ≤ 1 ∧ as.length ≤ 1 := by
  cases h with
  | start k m hrec hstatus =>
      exact ⟨[], [], by rw [startSession_transcriptHistory]; simp,
             by simp, by simp, by simp, by simp⟩
  | stop =>
      exact ⟨[], [], by rw [stopSession_transcriptHistory]; simp,
             by simp, by simp, by simp, by simp⟩
  | opened hs => exact ⟨[], [], by simp [onopen], by simp, by simp, by simp, by simp⟩
  | message msg now hs =>
      cases hm : msg.turnComplete with
      | false =>
          obtain ⟨-, -, h3, -⟩ := onmessage_nonTurn s msg now hm
          exact ⟨[], [], by rw [h3]; simp, by simp, by simp, by simp, by simp⟩
      | true =>
          obtain ⟨h1, -, -, -, -⟩ := onmessage_turn s msg now hm
          refine ⟨_, _, h1, ?_, ?_, ?_, ?_⟩
          · split <;> simp
          · split <;> simp
          · split <;> simp
          · split <;> simp
  | ended i hi =>
      obtain ⟨-, -, -, -, -, -, hh, -⟩ := onended_spec s i
      exact ⟨[], [], by rw [hh]; simp, by simp, by simp, by simp, by simp⟩
  | errorEvt hs =>
      exact ⟨[], [], by rw [onerror, stopSession_transcriptHistory]; simp,
             by simp, by simp, by simp, by simp⟩
  | closeEvt hs =>
      exact ⟨[], [], by rw [onclose, stopSession_transcriptHistory]; simp,
             by simp, by simp, by simp, by simp⟩
  | setMode m =>
      rcases setModeClick_spec m s with h | ⟨-, h⟩ <;> rw [h]
      · exact ⟨[], [], by simp, by simp, by simp, by simp, by simp⟩
      · exact ⟨[], [], by simp, by simp, by simp, by simp, by simp⟩

/-- Witness for claim C8: a concrete turn-completing transition from the
active session appends its (empty-buffer) turn in order. -/
theorem history_append_ordered_witness :
    ∃ us as,
      (onmessage activeState ⟨some "salam", none, none, true⟩ 0).transcriptHistory
        = activeState.transcriptHistory ++ us ++ as ∧
      (∀ x ∈ us, x.speaker = .user) ∧ (∀ x ∈ as, x.speaker = .ai) ∧
      us.length ≤ 1 ∧ as.length ≤ 1 :=
  history_append_ordered
    (Step.message activeState ⟨some "salam", none, none, true⟩ 0 rfl)

/-- Claim C9: calling `stopSession` while playback sources are in the
active set force-stops every one of them (recorded in the ledger), empties
the active set, closes both audio contexts and leaves the state idle. -/
theorem stop_force_stops_scheduled_sources (s : AppState) (h : Reachable s)
    (hne : s.audioSources ≠ []) :
    (stopSession s).sources = s.sources.map (stopMark s.audioSources) ∧
    (∀ p ∈ (stopSession s).sources, p.id ∈ s.audioSources → p.stopped = true) ∧
    (stopSession s).audioSources = [] ∧
    (stopSession s).inputAudioContext = false ∧
    (stopSession s).outputAudioContext = false ∧
    (stopSession s).status = .idle := by
  have hctx := ((reachable_ctrlInv h).2.2 hne).2
  obtain ⟨hsrc, hset⟩ := stopSession_sources_of_open s hctx
  refine ⟨hsrc, ?_, hset, (stopSession_core s).2.2.2.2.2.2.1,
          (stopSession_core s).2.2.2.2.2.2.2, (stopSession_core s).2.1⟩
  intro p hp hid
  rw [hsrc] at hp
  rcases List.mem_map.mp hp with ⟨q, hq, hpq⟩
  subst hpq
  by_cases hin : q.id ∈ s.audioSources
  · simp [stopMark, hin]
  · unfold stopMark at hid
    rw [if_neg hin] at hid
    exact absurd hid hin

/-- Witness for claim C9 at the reachable state with two active sources. -/
theorem stop_force_stops_scheduled_sources_witness :
    (stopSession twoSourceState).sources
        = twoSourceState.sources.map (stopMark twoSourceState.audioSources) ∧
    (∀ p ∈ (stopSession twoSourceState).sources,
        p.id ∈ twoSourceState.audioSources → p.stopped = true) ∧
    (stopSession twoSourceState).audioSources = [] ∧
    (stopSession twoSourceState).inputAudioContext = false ∧
    (stopSession twoSourceState).outputAudioContext = false ∧
    (stopSession twoSourceState).status = .idle :=
  stop_force_stops_scheduled_sources twoSourceState reachable_twoSourceState (by decide)

/-- Claim C10: `stopSession` never touches the finalized transcript
history — it clears only the in-progress buffers and their live-display
counterparts, so the history stays available for summarization. -/
theorem stop_preserves_history (s : AppState) :
    (stopSession s).transcriptHistory = s.transcriptHistory ∧
    (stopSession s).currentInputTranscription = "" ∧
    (stopSession s).currentOutputTranscription = "" ∧
    (stopSession s).currentUserTranscript = "" ∧
    (stopSession s).currentAiTranscript = "" :=
  ⟨stopSession_transcriptHistory s, (stopSession_buffersCleared s).1,
   (stopSession_buffersCleared s).2.1, (stopSession_buffersCleared s).2.2.1,
   (stopSession_buffersCleared s).2.2.2⟩

/-! ## Codec round-trip lemmas -/

lemma charSextet_sextetChar : ∀ n < 64, charSextet (sextetChar n) = n := by decide

lemma sextetChar_ne_pad : ∀ n < 64, sextetChar n ≠ '=' := by decide

lemma bytesToSextets_lt : ∀ bytes : List ℕ, (∀ b ∈ bytes, b < 256) →
    ∀ x ∈ bytesToSextets bytes, x < 64
  | [], _, x, hx => absurd hx (by simp [bytesToSextets])
  | [b0], h, x, hx => by
      have hb0 := h b0 (by simp)
      simp [bytesToSextets] at hx
      rcases hx with h1 | h1 <;> omega
  | [b0, b1], h, x, hx => by
      have hb0 := h b0 (by simp)
      have hb1 := h b1 (by simp)
      simp [bytesToSextets] at hx
      rcases hx with h1 | h1 | h1 <;> omega
  | [b0, b1, b2], h, x, hx => by
      have hb0 := h b0 (by simp)
      have hb1 := h b1 (by simp)
      have hb2 := h b2 (by simp)
      simp [bytesToSextets] at hx
      rcases hx with h1 | h1 | h1 | h1 <;> omega
  | b0 :: b1 :: b2 :: c :: rest, h, x, hx => by
      have hb0 := h b0 (by simp)
      have hb1 := h b1 (by simp)
      have hb2 := h b2 (by simp)
      simp only [bytesToSextets, List.mem_cons] at hx
      rcases hx with h1 | h1 | h1 | h1 | h1
      · omega
      · omega
      · omega
      · omega
      · exact bytesToSextets_lt (c :: rest)
          (fun b hb => h b (by simp at hb ⊢; tauto)) x h1

lemma sextets_roundtrip : ∀ bytes : List ℕ, (∀ b ∈ bytes, b < 256) →
    sextetsToBytes (bytesToSextets bytes) = bytes
  | [], _ => rfl
  | [b0], h => by
      have hb0 := h b0 (by simp)
      simp [bytesToSextets, sextetsToBytes]
      omega
  | [b0, b1], h => by
      have hb0 := h b0 (by simp)
      have hb1 := h b1 (by simp)
      simp [bytesToSextets, sextetsToBytes]
      constructor <;> omega
  | [b0, b1, b2], h => by
      have hb0 := h b0 (by simp)
      have hb1 := h b1 (by simp)
      have hb2 := h b2 (by simp)
      simp [bytesToSextets, sextetsToBytes]
      refine ⟨?_, ?_, ?_⟩ <;> omega
  | b0 :: b1 :: b2 :: c :: rest, h => by
      have hb0 := h b0 (by simp)
      have hb1 := h b1 (by simp)
      have hb2 := h b2 (by simp)
      have ih := sextets_roundtrip (c :: rest) fun b hb => h b (by simp at hb ⊢; tauto)
      simp only [bytesToSextets, sextetsToBytes, ih, List.cons.injEq]
      exact ⟨by omega, by omega, by omega, trivial⟩

lemma map_sextet_inv (sx : List ℕ) (h : ∀ x ∈ sx, x < 64) :
    (sx.map sextetChar).map charSextet = sx := by
  induction sx with
  | nil => rfl
  | cons a as ih =>
      simp only [List.map_cons, List.cons.injEq]
      exact ⟨charSextet_sextetChar a (h a (by simp)),
             ih fun x hx => h x (by simp [hx])⟩

lemma base64_roundtrip (bytes : List ℕ) (h : ∀ b ∈ bytes, b < 256) :
    base64Decode (base64Encode bytes) = bytes := by
  unfold base64Decode base64Encode
  have htl : (String.mk ((bytesToSextets bytes).map sextetChar
        ++ base64Pad (bytes.length % 3))).toList
      = (bytesToSextets bytes).map sextetChar ++ base64Pad (bytes.length % 3) := rfl
  rw [htl, List.filter_append]
  have hpad : (base64Pad (bytes.length % 3)).filter (fun c => c ≠ '=') = [] := by
    unfold base64Pad; split <;> rfl
  have hself : ((bytesToSextets bytes).map sextetChar).filter (fun c => c ≠ '=')
      = (bytesToSextets bytes).map sextetChar := by
    rw [List.filter_eq_self]
    intro c hc
    rcases List.mem_map.mp hc with ⟨n, hn, rfl⟩
    simpa using sextetChar_ne_pad n (bytesToSextets_lt bytes h n hn)
  rw [hpad, hself, List.append_nil,
      map_sextet_inv (bytesToSextets bytes) (bytesToSextets_lt bytes h)]
  exact sextets_roundtrip bytes h

lemma quantize_bounds (x : ℚ) : -32767 ≤ quantize x ∧ quantize x ≤ 32767 := by
  unfold quantize
  have hc1 : -1 ≤ clampSample x := le_max_left _ _
  have hc2 : clampSample x ≤ 1 := max_le (by norm_num) (min_le_left _ _)
  constructor
  · rw [Int.le_floor]
    push_cast
    linarith
  · have hf := Int.floor_lt.mpr
      (show clampSample x * 32767 + 1 / 2 < ((32768 : ℤ) : ℚ) by push_cast; linarith)
    omega

lemma pcmBytes_lt : ∀ samples : List ℚ, ∀ b ∈ pcmBytes samples, b < 256
  | [], b, hb => absurd hb (by simp [pcmBytes])
  | x :: xs, b, hb => by
      simp only [pcmBytes, int16ToBytes, List.cons_append, List.nil_append,
        List.mem_cons] at hb
      rcases hb with h1 | h1 | h1
      · omega
      · omega
      · exact pcmBytes_lt xs b h1

lemma int16_roundtrip (v : ℤ) (h1 : -32768 ≤ v) (h2 : v ≤ 32767) :
    bytesToInt16 ((v % 65536).toNat % 256) ((v % 65536).toNat / 256) = v := by
  simp only [bytesToInt16]
  split <;> omega

lemma pcm_decode : ∀ samples : List ℚ,
    bytesToInts (pcmBytes samples) = samples.map (fun x => quantize x)
  | [] => rfl
  | x :: xs => by
      have hb := quantize_bounds x
      have ih := pcm_decode xs
      simp only [pcmBytes, int16ToBytes, List.cons_append, List.nil_append,
        bytesToInts, List.map_cons, ih, List.cons.injEq]
      refine ⟨int16_roundtrip (quantize x) (by omega) hb.2, ?_⟩
      simpa using ih

lemma quantize_dequantize_error (x : ℚ) :
    |dequantize (quantize x) - clampSample x| ≤ 1 / 65534 := by
  unfold dequantize quantize
  have h1 : ((⌊clampSample x * 32767 + 1 / 2⌋ : ℤ) : ℚ)
      ≤ clampSample x * 32767 + 1 / 2 := Int.floor_le _
  have h2 : clampSample x * 32767 + 1 / 2
      < (⌊clampSample x * 32767 + 1 / 2⌋ : ℤ) + 1 := Int.lt_floor_add_one _
  rw [abs_le]
  constructor <;> linarith

lemma decode_encode (samples : List ℚ) :
    decodeInbound (encodeOutbound samples).data
      = samples.map (fun x => dequantize (quantize x)) := by
  unfold decodeInbound encodeOutbound
  rw [base64_roundtrip (pcmBytes samples) (pcmBytes_lt samples),
      pcm_decode samples, List.map_map]
  rfl

/-- Claim C6: encoding a sample sequence with `encodeOutbound` and decoding
the result with `decodeInbound` (through the base64 round trip) yields a
sequence of the same length whose entries equal the clamp-to-[-1,1] of the
original samples up to 16-bit quantization error (half a quantization step,
1/65534). -/
theorem encode_decode_roundtrip (samples : List ℚ) :
    (decodeInbound (encodeOutbound samples).data).length = samples.length ∧
    ∀ i, i < samples.length →
      |(decodeInbound (encodeOutbound samples).data).getD i 0
          - clampSample (samples.getD i 0)| ≤ 1 / 65534 := by
  rw [decode_encode]
  refine ⟨by simp, fun i hi => ?_⟩
  have hlen : i < (samples.map (fun x => dequantize (quantize x))).length := by
    simpa using hi
  rw [List.getD_eq_getElem _ _ hlen, List.getElem_map,
      ← List.getD_eq_getElem samples 0 hi]
  exact quantize_dequantize_error _

/-- Witness for claim C6: an out-of-range sample 2 and an in-range sample
-1/2 decode back to their clamped values within the error bound. -/
theorem encode_decode_roundtrip_witness :
    |(decodeInbound (encodeOutbound [(2 : ℚ), -1/2]).data).getD 1 0
        - clampSample (([(2 : ℚ), -1/2]).getD 1 0)| ≤ 1 / 65534 :=
  (encode_decode_roundtrip [(2 : ℚ), -1/2]).2 1 (by decide)
